import Mathlib

/-
Verification of the Linux filesystem-watcher event handler
(src/core/src/location/manager/watcher/linux.rs).

The handler owns five pieces of state: three timestamped maps
(rename_from, recently_renamed_from, files_to_update), two scratch
buffers, and the timestamp of the last eviction check.  Incoming
classified events mutate the maps or emit mutations to the index sink;
a periodic tick sweeps expired entries.

Time is modelled by natural-number instants; Instant.elapsed() at a
sweep occurring at instant now over an entry stamped t is now - t
(truncated subtraction, matching the non-negative Rust Instant).
Fallible effects (fs::metadata, sink calls) are modelled by an
environment of oracles; the trace records the sink calls that
succeeded, and the invalidate_query signal is recorded as the
notify_changed trace element.
-/

namespace SpacedriveWatcher

/-- Absolute filesystem path (PathBuf in the source); opaque key. -/
abbrev FsPath := String

/-- Filesystem metadata returned by fs::metadata; opaque payload. -/
abbrev Metadata := Nat

/-- HUNDRED_MILLIS, the base cadence unit, in milliseconds. -/
def hundredMillis : Nat := 100

/-- A timestamped map (HashMap(PathBuf, Instant) or BTreeMap in the source),
modelled as an association list with unique keys. -/
abbrev TimedMap := List (FsPath × Nat)

namespace TimedMap

/-- HashMap::remove for a key (dropping the returned value). -/
def removeKey (m : TimedMap) (p : FsPath) : TimedMap :=
  m.filter (fun e => !(e.1 == p))

/-- HashMap::insert, replacing any previous entry for the key. -/
def insertKey (m : TimedMap) (p : FsPath) (t : Nat) : TimedMap :=
  (p, t) :: m.removeKey p

/-- Whether the map has an entry for the key. -/
def containsKey (m : TimedMap) (p : FsPath) : Bool :=
  m.any (fun e => e.1 == p)

end TimedMap

/-- A sink call (to super::utils create_dir, update_file, remove, rename) or
the invalidate_query signal.  The location_id argument is constant for one
handler instance and is omitted. -/
inductive Mutation
  | create_dir (path : FsPath) (meta : Metadata)
  | update_file (path : FsPath)
  | remove (path : FsPath)
  | rename (newPath oldPath : FsPath) (meta : Metadata)
  | notify_changed
  deriving DecidableEq

/-- Error from handling one event or flushing one entry: a FileIOError from
fs::metadata on the given path, or a LocationManagerError from a sink call. -/
inductive HandleError
  | fsError (path : FsPath)
  | sinkError
  deriving DecidableEq

/-- Oracles for the fallible effects: fs::metadata results (none is an I/O
error) and success of each sink call. -/
structure Env where
  metadata : FsPath → Option Metadata
  createDirOk : FsPath → Bool
  updateOk : FsPath → Bool
  removeOk : FsPath → Bool
  renameOk : FsPath → Bool

/-- The mutable state of LinuxEventHandler, with source field names. -/
structure HandlerState where
  last_events_eviction_check : Nat
  rename_from : TimedMap
  rename_from_buffer : TimedMap
  recently_renamed_from : TimedMap
  files_to_update : TimedMap
  files_to_update_buffer : TimedMap
  deriving DecidableEq

/-- LinuxEventHandler::new at instant now: empty maps and buffers,
last_events_eviction_check = now. -/
def initialState (now : Nat) : HandlerState :=
  { last_events_eviction_check := now
    rename_from := []
    rename_from_buffer := []
    recently_renamed_from := []
    files_to_update := []
    files_to_update_buffer := [] }

/-- The classified event kinds handled by handle_event.  For renameBoth the
two fields are paths[0] and paths[1] of the notify event, exactly as the
source indexes them (the source binds from_path = paths[0] and
to_path = paths[1]). -/
inductive WatcherEvent
  | createFile (path : FsPath)
  | createFolder (path : FsPath)
  | dataChanged (path : FsPath)
  | renameFrom (path : FsPath)
  | renameBoth (path0 path1 : FsPath)
  | removeEvent (path : FsPath)
  | otherEvent
  deriving DecidableEq

/-- LinuxEventHandler::handle_event at instant now.  Returns the new state,
the trace of sink calls that succeeded, and the Result. -/
def handle_event (env : Env) (now : Nat) (s : HandlerState) :
    WatcherEvent → HandlerState × List Mutation × Except HandleError Unit
  | .createFile p | .dataChanged p =>
      ({ s with files_to_update := s.files_to_update.insertKey p now }, [], .ok ())
  | .createFolder p =>
      match env.metadata p with
      | none => (s, [], .error (.fsError p))
      | some m =>
          if env.createDirOk p then (s, [.create_dir p m], .ok ())
          else (s, [], .error .sinkError)
  | .renameFrom p =>
      if s.recently_renamed_from.containsKey p then
        ({ s with recently_renamed_from := s.recently_renamed_from.removeKey p }, [], .ok ())
      else
        ({ s with rename_from := s.rename_from.insertKey p now }, [], .ok ())
  | .renameBoth path0 path1 =>
      let s1 := { s with rename_from := s.rename_from.removeKey path0 }
      match env.metadata path1 with
      | none => (s1, [], .error (.fsError path1))
      | some m =>
          if env.renameOk path1 then
            ({ s1 with recently_renamed_from :=
                  s1.recently_renamed_from.insertKey path0 now },
              [.rename path1 path0 m], .ok ())
          else (s1, [], .error .sinkError)
  | .removeEvent p =>
      if env.removeOk p then (s, [.remove p], .ok ()) else (s, [], .error .sinkError)
  | .otherEvent => (s, [], .ok ())

/-- The drain loop of handle_to_update_eviction.  Returns the buffer of
retained young entries, the trace of successful update_file calls, the
should_invalidate flag, and whether the loop ran to completion.  On a sink
failure the loop aborts: later entries are dropped (HashMap::drain empties
the map when its iterator is dropped) and only the buffer pushes that
happened before the failure survive. -/
def to_update_loop (env : Env) (now : Nat) :
    TimedMap → TimedMap × List Mutation × Bool × Bool
  | [] => ([], [], false, true)
  | (p, t) :: rest =>
      if now - t < hundredMillis * 5 then
        let r := to_update_loop env now rest
        ((p, t) :: r.1, r.2.1, r.2.2.1, r.2.2.2)
      else if env.updateOk p then
        let r := to_update_loop env now rest
        (r.1, .update_file p :: r.2.1, true, r.2.2.2)
      else ([], [], false, false)

/-- LinuxEventHandler::handle_to_update_eviction at instant now.  The third
component is false exactly when the function returned Err.  On success the
buffer is drained back into the map; on failure the map is left empty (drained)
and the young entries pushed before the failure sit in the buffer field, which
the next invocation clears. -/
def handle_to_update_eviction (env : Env) (now : Nat) (s : HandlerState) :
    HandlerState × List Mutation × Bool :=
  let r := to_update_loop env now s.files_to_update
  if r.2.2.2 then
    ({ s with files_to_update := r.1, files_to_update_buffer := [] },
      r.2.1 ++ (if r.2.2.1 then [.notify_changed] else []), true)
  else
    ({ s with files_to_update := [], files_to_update_buffer := r.1 }, r.2.1, false)

/-- The drain loop of handle_rename_from_eviction, shaped like
to_update_loop but expiring entries strictly older than HUNDRED_MILLIS and
emitting remove for them. -/
def rename_from_loop (env : Env) (now : Nat) :
    TimedMap → TimedMap × List Mutation × Bool × Bool
  | [] => ([], [], false, true)
  | (p, t) :: rest =>
      if hundredMillis < now - t then
        if env.removeOk p then
          let r := rename_from_loop env now rest
          (r.1, .remove p :: r.2.1, true, r.2.2.2)
        else ([], [], false, false)
      else
        let r := rename_from_loop env now rest
        ((p, t) :: r.1, r.2.1, r.2.2.1, r.2.2.2)

/-- LinuxEventHandler::handle_rename_from_eviction at instant now. -/
def handle_rename_from_eviction (env : Env) (now : Nat) (s : HandlerState) :
    HandlerState × List Mutation × Bool :=
  let r := rename_from_loop env now s.rename_from
  if r.2.2.2 then
    ({ s with rename_from := r.1, rename_from_buffer := [] },
      r.2.1 ++ (if r.2.2.1 then [.notify_changed] else []), true)
  else
    ({ s with rename_from := [], rename_from_buffer := r.1 }, r.2.1, false)

/-- LinuxEventHandler::tick at instant now.  If the cadence gate passes, it
runs the two evictions (their errors are logged, not propagated), retains the
young recently_renamed_from entries, and resets the last-checked instant. -/
def tick (env : Env) (now : Nat) (s : HandlerState) : HandlerState × List Mutation :=
  if hundredMillis < now - s.last_events_eviction_check then
    let r1 := handle_to_update_eviction env now s
    let r2 := handle_rename_from_eviction env now r1.1
    ({ r2.1 with
        recently_renamed_from :=
          r2.1.recently_renamed_from.filter (fun e => decide (now - e.2 < hundredMillis))
        last_events_eviction_check := now },
      r1.2.1 ++ r2.2.1)
  else (s, [])

/-- One invocation of the handler: either handle_event on a classified event
or tick. -/
inductive Op
  | event (e : WatcherEvent)
  | tickOp
  deriving DecidableEq

/-- Apply one operation, keeping the state and the emitted trace. -/
def step (env : Env) (now : Nat) (s : HandlerState) : Op → HandlerState × List Mutation
  | .event e => ((handle_event env now s e).1, (handle_event env now s e).2.1)
  | .tickOp => tick env now s

/-- Run a schedule of operations, each with its own environment and instant;
the trace tags every mutation with the instant of the step emitting it. -/
def run (s : HandlerState) : List (Env × Nat × Op) → HandlerState × List (Nat × Mutation)
  | [] => (s, [])
  | x :: rest =>
      let r := step x.1 x.2.1 s x.2.2
      let r2 := run r.1 rest
      (r2.1, r.2.map (fun m => (x.2.1, m)) ++ r2.2)

/-- Environment in which every metadata fetch and every sink call succeeds. -/
def okEnv : Env :=
  { metadata := fun _ => some 0
    createDirOk := fun _ => true
    updateOk := fun _ => true
    removeOk := fun _ => true
    renameOk := fun _ => true }

/-- Number of occurrences of a mutation in a plain trace. -/
def countMut (tr : List Mutation) (m : Mutation) : Nat :=
  tr.countP (fun x => decide (x = m))

/-- Number of occurrences of a mutation in an instant-tagged trace. -/
def countMutT (tr : List (Nat × Mutation)) (m : Mutation) : Nat :=
  tr.countP (fun x => decide (x.2 = m))

/-- State whose only pending entry is one files_to_update entry for p stamped
tN, with the last eviction check at lc: the state reached after a burst of
data events on p. -/
def preFlushState (p : FsPath) (tN lc : Nat) : HandlerState :=
  { initialState lc with files_to_update := [(p, tN)] }

/-- A burst event for path p: CreateFile when the flag is true, otherwise
DataChanged; both take the same handle_event branch. -/
def burstEvent (p : FsPath) (isCreate : Bool) : WatcherEvent :=
  if isCreate then .createFile p else .dataChanged p

/-- Schedule of a burst: each pair is an instant and the CreateFile flag.
Event handling for these kinds consults no oracle, so okEnv is carried. -/
def burstSched (p : FsPath) (es : List (Nat × Bool)) : List (Env × Nat × Op) :=
  es.map (fun x => (okEnv, x.1, Op.event (burstEvent p x.2)))

/-- Schedule of ticks at the given instants, in the all-success environment. -/
def ticksSched (us : List Nat) : List (Env × Nat × Op) :=
  us.map (fun u => (okEnv, u, Op.tickOp))

/-- The instant of the last burst event, or the default for an empty burst. -/
def lastTimeD (es : List (Nat × Bool)) (d : Nat) : Nat :=
  es.foldl (fun _ x => x.1) d

/-- Modelled from the spec, for comparison with handle_event (the spec and
claim C4 read the RenameBoth pair as (new path, old path)): fetch metadata for
paths[0] and emit rename with paths[0] as the new path and paths[1] as the
old path, removing paths[1] from rename_from and marking paths[1] as recently
renamed. -/
def handle_rename_both_specReading (env : Env) (now : Nat) (s : HandlerState)
    (path0 path1 : FsPath) : HandlerState × List Mutation × Except HandleError Unit :=
  let s1 := { s with rename_from := s.rename_from.removeKey path1 }
  match env.metadata path0 with
  | none => (s1, [], .error (.fsError path0))
  | some m =>
      if env.renameOk path0 then
        ({ s1 with recently_renamed_from :=
              s1.recently_renamed_from.insertKey path1 now },
          [.rename path0 path1 m], .ok ())
      else (s1, [], .error .sinkError)

/-- Environment for the C1 counterexample: metadata fails for path B only. -/
def c1Env : Env :=
  { okEnv with metadata := fun q => if q == "B" then none else some 0 }

/-- State for the C1 counterexample: a pending rename-from entry for A. -/
def c1State : HandlerState :=
  { initialState 0 with rename_from := [("A", 0)] }

/-- Environment for the C2 counterexample: the sink rejects update_file and
remove for the path bad, and accepts everything else. -/
def failEnv : Env :=
  { okEnv with
    updateOk := fun q => !(q == "bad")
    removeOk := fun q => !(q == "bad") }

/-- State for the C2 counterexample: in each of the two swept maps, a young
entry ahead of an expired entry whose flush will fail. -/
def c2State : HandlerState :=
  { initialState 0 with
    files_to_update := [("young", 950), ("bad", 0)]
    rename_from := [("ryoung", 950), ("bad", 0)] }

/-- State for the C3 counterexample: one expired files_to_update entry and one
expired rename_from entry, so both sweep steps emit a mutation. -/
def c3State : HandlerState :=
  { initialState 0 with files_to_update := [("a", 0)], rename_from := [("b", 0)] }

/-- Environment for the C4 counterexample: metadata fails for path A (the
first element of the pair) and succeeds with value 7 for path B. -/
def c4Env : Env :=
  { okEnv with metadata := fun q => if q == "A" then none else some 7 }

/-- Invariant of claim C8: no path is simultaneously a key of the
pending-rename-from map and of the resolved-rename-marker map. -/
def renameMapsDisjoint (s : HandlerState) : Prop :=
  ∀ q, s.rename_from.containsKey q = true → s.recently_renamed_from.containsKey q = false

/- ————————————————————————————————————————————————————————————————
   Theorems.  Helper lemmas first, then one theorem per claim (with
   counterexamples and witnesses where required).
   ———————————————————————————————————————————————————————————————— -/

namespace TimedMap

theorem containsKey_iff {m : TimedMap} {q : FsPath} :
    m.containsKey q = true ↔ ∃ t, (q, t) ∈ m := by
  simp only [containsKey, List.any_eq_true]
  constructor
  · rintro ⟨⟨a, b⟩, hmem, hbeq⟩
    exact ⟨b, by simpa using (beq_iff_eq.mp hbeq ▸ hmem)⟩
  · rintro ⟨t, hmem⟩
    exact ⟨(q, t), hmem, by simp⟩

theorem containsKey_false_of_subset {m m2 : TimedMap} {q : FsPath}
    (hsub : ∀ e ∈ m2, e ∈ m) (h : m.containsKey q = false) :
    m2.containsKey q = false := by
  by_contra hc
  have h2 : m2.containsKey q = true := by
    cases hx : m2.containsKey q
    · exact absurd hx hc
    · rfl
  obtain ⟨t, hmem⟩ := containsKey_iff.mp h2
  have : m.containsKey q = true := containsKey_iff.mpr ⟨t, hsub _ hmem⟩
  simp [this] at h

theorem mem_removeKey {m : TimedMap} {p : FsPath} {e : FsPath × Nat}
    (h : e ∈ m.removeKey p) : e ∈ m :=
  (List.mem_filter.mp h).1

theorem containsKey_removeKey_self (m : TimedMap) (p : FsPath) :
    (m.removeKey p).containsKey p = false := by
  simp only [containsKey, removeKey]
  rw [List.any_eq_false]
  intro e he
  rcases List.mem_filter.mp he with ⟨_, h2⟩
  simpa using h2

theorem containsKey_removeKey {m : TimedMap} {p q : FsPath} (hne : q ≠ p) :
    (m.removeKey p).containsKey q = m.containsKey q := by
  simp only [containsKey, removeKey, List.any_filter]
  congr 1
  funext e
  by_cases he : e.1 = q
  · simp [he, hne]
  · simp [he]

theorem containsKey_insertKey (m : TimedMap) (p : FsPath) (t : Nat) (q : FsPath) :
    (m.insertKey p t).containsKey q = (q == p || m.containsKey q) := by
  by_cases hq : q = p
  · subst hq
    simp [insertKey, containsKey]
  · have h1 : (m.insertKey p t).containsKey q = (m.removeKey p).containsKey q := by
      simp only [insertKey, containsKey, List.any_cons]
      have hf : ((p, t).1 == q) = false := by
        simp only [beq_eq_false_iff_ne]
        exact fun h => hq h.symm
      simp [hf]
    rw [h1, containsKey_removeKey hq]
    have hf2 : (q == p) = false := by simp [hq]
    simp [hf2]

end TimedMap

/-- The buffer produced by the update-eviction loop holds only entries of the
input map. -/
theorem to_update_loop_buf_subset (env : Env) (now : Nat) :
    ∀ l : TimedMap, ∀ e ∈ (to_update_loop env now l).1, e ∈ l := by
  intro l
  induction l with
  | nil => simp [to_update_loop]
  | cons x rest ih =>
      obtain ⟨p, t⟩ := x
      intro e he
      simp only [to_update_loop] at he
      split at he
      · rcases List.mem_cons.mp he with h | h
        · simp [h]
        · exact List.mem_cons_of_mem _ (ih e h)
      · split at he
        · exact List.mem_cons_of_mem _ (ih e he)
        · simp at he

/-- The buffer produced by the rename-eviction loop holds only entries of the
input map. -/
theorem rename_from_loop_buf_subset (env : Env) (now : Nat) :
    ∀ l : TimedMap, ∀ e ∈ (rename_from_loop env now l).1, e ∈ l := by
  intro l
  induction l with
  | nil => simp [rename_from_loop]
  | cons x rest ih =>
      obtain ⟨p, t⟩ := x
      intro e he
      simp only [rename_from_loop] at he
      split at he
      · split at he
        · exact List.mem_cons_of_mem _ (ih e he)
        · simp at he
      · rcases List.mem_cons.mp he with h | h
        · simp [h]
        · exact List.mem_cons_of_mem _ (ih e h)

/-- The update-eviction loop emits only update_file mutations. -/
theorem to_update_loop_trace_shape (env : Env) (now : Nat) :
    ∀ l : TimedMap, ∀ m ∈ (to_update_loop env now l).2.1, ∃ p, m = Mutation.update_file p := by
  intro l
  induction l with
  | nil => simp [to_update_loop]
  | cons x rest ih =>
      obtain ⟨p, t⟩ := x
      intro m hm
      simp only [to_update_loop] at hm
      split at hm
      · exact ih m hm
      · split at hm
        · rcases List.mem_cons.mp hm with h | h
          · exact ⟨p, h⟩
          · exact ih m h
        · simp at hm

/-- The rename-eviction loop emits only remove mutations. -/
theorem rename_from_loop_trace_shape (env : Env) (now : Nat) :
    ∀ l : TimedMap, ∀ m ∈ (rename_from_loop env now l).2.1, ∃ p, m = Mutation.remove p := by
  intro l
  induction l with
  | nil => simp [rename_from_loop]
  | cons x rest ih =>
      obtain ⟨p, t⟩ := x
      intro m hm
      simp only [rename_from_loop] at hm
      split at hm
      · split at hm
        · rcases List.mem_cons.mp hm with h | h
          · exact ⟨p, h⟩
          · exact ih m h
        · simp at hm
      · exact ih m hm

/-- If the update eviction failed, the files_to_update map is left empty. -/
theorem to_update_eviction_failure_empties (env : Env) (now : Nat) (s : HandlerState)
    (h : (handle_to_update_eviction env now s).2.2 = false) :
    (handle_to_update_eviction env now s).1.files_to_update = [] := by
  rcases hr : to_update_loop env now s.files_to_update with ⟨buf, tr, inv, ok⟩
  simp only [handle_to_update_eviction, hr] at h ⊢
  cases ok
  · simp
  · simp at h

/-- If the rename eviction failed, the rename_from map is left empty. -/
theorem rename_eviction_failure_empties (env : Env) (now : Nat) (s : HandlerState)
    (h : (handle_rename_from_eviction env now s).2.2 = false) :
    (handle_rename_from_eviction env now s).1.rename_from = [] := by
  rcases hr : rename_from_loop env now s.rename_from with ⟨buf, tr, inv, ok⟩
  simp only [handle_rename_from_eviction, hr] at h ⊢
  cases ok
  · simp
  · simp at h

/-- An update eviction over an empty files_to_update map leaves it empty. -/
theorem to_update_eviction_on_empty (env : Env) (now : Nat) (s : HandlerState)
    (h : s.files_to_update = []) :
    (handle_to_update_eviction env now s).1.files_to_update = [] := by
  simp [handle_to_update_eviction, h, to_update_loop]

/-- C1 (amended): when the metadata fetch for paths[1] of a RenameBoth event
fails, the handler surfaces a file I/O error for that event and emits no
mutation; files_to_update and recently_renamed_from are unchanged, but the
removal of paths[0] from rename_from has already happened, because the source
removes the rename-from entry before fetching metadata. -/
theorem c1_rename_both_metadata_failure (env : Env) (now : Nat) (s : HandlerState)
    (path0 path1 : FsPath) (hmeta : env.metadata path1 = none) :
    handle_event env now s (.renameBoth path0 path1) =
      ({ s with rename_from := s.rename_from.removeKey path0 }, [],
        .error (.fsError path1)) := by
  simp [handle_event, hmeta]

/-- C1 counterexample: with a pending rename-from entry for A and an event
RenameBoth with paths [A, B] whose metadata fetch for B fails, the handler
surfaces the error but the pending-rename-from map is not as it was before the
event: the entry for A is gone. -/
theorem c1_cex :
    (handle_event c1Env 5 c1State (.renameBoth "A" "B")).2.2 =
        Except.error (HandleError.fsError "B") ∧
    (handle_event c1Env 5 c1State (.renameBoth "A" "B")).1.rename_from ≠
        c1State.rename_from := by
  exact ⟨rfl, by decide⟩

/-- C1 witness: the amended theorem applied at the concrete failing input. -/
theorem c1_witness :
    c1Env.metadata "B" = none ∧
    handle_event c1Env 5 c1State (.renameBoth "A" "B") =
      ({ c1State with rename_from := c1State.rename_from.removeKey "A" }, [],
        .error (.fsError "B")) :=
  ⟨by decide, c1_rename_both_metadata_failure c1Env 5 c1State "A" "B" (by decide)⟩

/-- C2 (amended): a sink mutation error while flushing one expired entry is
not scoped to that entry: it aborts the whole sweep of that map, and the map
(files_to_update for the update sweep, rename_from for the dangling-rename
sweep) is left empty, so the not-yet-expired entries do not remain pending in
the map; the young entries reached before the failure survive only in the
scratch buffer, and the next sweep of that map still finds an empty map. -/
theorem c2_sweep_failure_empties_map (env : Env) (now : Nat) (s : HandlerState) :
    ((handle_to_update_eviction env now s).2.2 = false →
      (handle_to_update_eviction env now s).1.files_to_update = [] ∧
      ∀ env2 now2,
        (handle_to_update_eviction env2 now2
          (handle_to_update_eviction env now s).1).1.files_to_update = []) ∧
    ((handle_rename_from_eviction env now s).2.2 = false →
      (handle_rename_from_eviction env now s).1.rename_from = []) := by
  refine ⟨fun h => ⟨to_update_eviction_failure_empties env now s h, fun env2 now2 => ?_⟩,
    fun h => rename_eviction_failure_empties env now s h⟩
  exact to_update_eviction_on_empty env2 now2 _
    (to_update_eviction_failure_empties env now s h)

/-- C2 counterexample: files_to_update holds a young entry and an expired
entry whose flush fails; after the failed sweep the young entry does not
remain pending in the map (the map is empty, the young entry only sits in the
scratch buffer), and likewise for rename_from; the claim that every other
entry remains in the map is false. -/
theorem c2_cex :
    (handle_to_update_eviction failEnv 1000 c2State).2.2 = false ∧
    c2State.files_to_update.containsKey "young" = true ∧
    (handle_to_update_eviction failEnv 1000 c2State).1.files_to_update.containsKey
        "young" = false ∧
    (handle_to_update_eviction failEnv 1000 c2State).1.files_to_update = [] ∧
    (handle_to_update_eviction failEnv 1000 c2State).1.files_to_update_buffer =
        [("young", 950)] ∧
    (handle_rename_from_eviction failEnv 1000 c2State).2.2 = false ∧
    c2State.rename_from.containsKey "ryoung" = true ∧
    (handle_rename_from_eviction failEnv 1000 c2State).1.rename_from.containsKey
        "ryoung" = false := by
  decide

/-- C2 witness: the amended theorem applied at the concrete failing sweep. -/
theorem c2_witness :
    (handle_to_update_eviction failEnv 1000 c2State).2.2 = false ∧
    (handle_to_update_eviction failEnv 1000 c2State).1.files_to_update = [] :=
  ⟨by decide, ((c2_sweep_failure_empties_map failEnv 1000 c2State).1 (by decide)).1⟩

/-- C3 (amended): within one eviction sweep, the change-notification signal is
coalesced per step, not per invocation: the update-flush step and the
dangling-rename step each emit it at most once (not once per mutation), so one
tick emits it at most twice, and it is emitted twice when both steps emitted a
mutation. -/
theorem c3_notify_coalesced_per_step (env : Env) (now : Nat) (s : HandlerState) :
    countMut (handle_to_update_eviction env now s).2.1 Mutation.notify_changed ≤ 1 ∧
    countMut (handle_rename_from_eviction env now s).2.1 Mutation.notify_changed ≤ 1 ∧
    countMut (tick env now s).2 Mutation.notify_changed ≤ 2 := by
  have hu : ∀ now2 s2, countMut (handle_to_update_eviction env now2 s2).2.1
      Mutation.notify_changed ≤ 1 := by
    intro now2 s2
    have hl : countMut (to_update_loop env now2 s2.files_to_update).2.1
        Mutation.notify_changed = 0 := by
      refine List.countP_eq_zero.mpr fun m hm => ?_
      obtain ⟨p, rfl⟩ := to_update_loop_trace_shape env now2 _ m hm
      simp
    rcases hr : to_update_loop env now2 s2.files_to_update with ⟨buf, tr, inv, ok⟩
    rw [hr] at hl
    have h0 : List.countP (fun x => decide (x = Mutation.notify_changed)) tr = 0 := hl
    simp only [handle_to_update_eviction, hr]
    cases ok
    · simp [countMut, h0]
    · cases inv <;> simp [countMut, List.countP_append, h0]
  have hrn : ∀ now2 s2, countMut (handle_rename_from_eviction env now2 s2).2.1
      Mutation.notify_changed ≤ 1 := by
    intro now2 s2
    have hl : countMut (rename_from_loop env now2 s2.rename_from).2.1
        Mutation.notify_changed = 0 := by
      refine List.countP_eq_zero.mpr fun m hm => ?_
      obtain ⟨p, rfl⟩ := rename_from_loop_trace_shape env now2 _ m hm
      simp
    rcases hr : rename_from_loop env now2 s2.rename_from with ⟨buf, tr, inv, ok⟩
    rw [hr] at hl
    have h0 : List.countP (fun x => decide (x = Mutation.notify_changed)) tr = 0 := hl
    simp only [handle_rename_from_eviction, hr]
    cases ok
    · simp [countMut, h0]
    · cases inv <;> simp [countMut, List.countP_append, h0]
  refine ⟨hu now s, hrn now s, ?_⟩
  by_cases hg : hundredMillis < now - s.last_events_eviction_check
  · simp only [tick, if_pos hg]
    simp only [countMut, List.countP_append]
    exact Nat.add_le_add (hu now s) (hrn now _)
  · simp [tick, hg, countMut]

/-- C3 counterexample: a sweep in which both the update-flush step and the
dangling-rename step emit a mutation signals the change notification twice,
not at most once. -/
theorem c3_cex :
    countMut (tick okEnv 1000 c3State).2 Mutation.notify_changed = 2 ∧
    countMut (tick okEnv 1000 c3State).2 (Mutation.update_file "a") = 1 ∧
    countMut (tick okEnv 1000 c3State).2 (Mutation.remove "b") = 1 := by
  decide

/-- C4 (amended): the path pair carried by a RenameBoth event is ordered
(old path, new path): the handler fetches metadata for the new path, which is
the SECOND element paths[1], and emits exactly one rename(new_path, old_path,
metadata) call with new_path = paths[1] and old_path = paths[0]. -/
theorem c4_rename_both_emission (env : Env) (now : Nat) (s : HandlerState)
    (path0 path1 : FsPath) (m : Metadata)
    (hmeta : env.metadata path1 = some m) (hok : env.renameOk path1 = true) :
    (handle_event env now s (.renameBoth path0 path1)).2.1 =
        [Mutation.rename path1 path0 m] ∧
    (handle_event env now s (.renameBoth path0 path1)).2.2 = .ok () := by
  simp [handle_event, hmeta, hok]

/-- C4 counterexample: in an environment where metadata for the first element
A of the pair fails and metadata for the second element B yields 7, the
handler succeeds and emits rename with B in the new-path position — it does
not behave as the spec reading in which the first element is the new path
(that reading would fail the event on the metadata fetch for A). -/
theorem c4_cex :
    c4Env.metadata "A" = none ∧
    (handle_event c4Env 0 (initialState 0) (.renameBoth "A" "B")).2.1 =
        [Mutation.rename "B" "A" 7] ∧
    (handle_event c4Env 0 (initialState 0) (.renameBoth "A" "B")).2.2 = .ok () ∧
    (handle_event c4Env 0 (initialState 0) (.renameBoth "A" "B")).2.1 ≠
      (handle_rename_both_specReading c4Env 0 (initialState 0) "A" "B").2.1 := by
  refine ⟨by decide, by decide, rfl, by decide⟩

/-- C4 witness: the amended theorem applied at a concrete RenameBoth event. -/
theorem c4_witness :
    c4Env.metadata "B" = some 7 ∧ c4Env.renameOk "B" = true ∧
    (handle_event c4Env 0 (initialState 0) (.renameBoth "A" "B")).2.1 =
        [Mutation.rename "B" "A" 7] ∧
    (handle_event c4Env 0 (initialState 0) (.renameBoth "A" "B")).2.2 = .ok () :=
  ⟨by decide, by decide,
    (c4_rename_both_emission c4Env 0 (initialState 0) "A" "B" 7 (by decide) (by decide)).1,
    (c4_rename_both_emission c4Env 0 (initialState 0) "A" "B" 7 (by decide) (by decide)).2⟩

/-- The update-eviction loop in the all-success environment keeps exactly the
young entries, flushes exactly the expired ones, and completes. -/
theorem to_update_loop_okEnv (now : Nat) (l : TimedMap) :
    to_update_loop okEnv now l =
      (l.filter (fun e => decide (now - e.2 < hundredMillis * 5)),
        (l.filter (fun e => !decide (now - e.2 < hundredMillis * 5))).map
          (fun e => Mutation.update_file e.1),
        l.any (fun e => !decide (now - e.2 < hundredMillis * 5)), true) := by
  induction l with
  | nil => simp [to_update_loop]
  | cons e rest ih =>
      obtain ⟨p, t⟩ := e
      by_cases h : now - t < hundredMillis * 5 <;>
        simp [to_update_loop, h, ih, show okEnv.updateOk p = true from rfl]

/-- The rename-eviction loop in the all-success environment keeps exactly the
young entries, removes exactly the expired ones, and completes. -/
theorem rename_from_loop_okEnv (now : Nat) (l : TimedMap) :
    rename_from_loop okEnv now l =
      (l.filter (fun e => !decide (hundredMillis < now - e.2)),
        (l.filter (fun e => decide (hundredMillis < now - e.2))).map
          (fun e => Mutation.remove e.1),
        l.any (fun e => decide (hundredMillis < now - e.2)), true) := by
  induction l with
  | nil => simp [rename_from_loop]
  | cons e rest ih =>
      obtain ⟨p, t⟩ := e
      by_cases h : hundredMillis < now - t <;>
        simp [rename_from_loop, h, ih, show okEnv.removeOk p = true from rfl]

/-- Update eviction in the all-success environment, in closed form. -/
theorem handle_to_update_eviction_okEnv (now : Nat) (s : HandlerState) :
    handle_to_update_eviction okEnv now s =
      ({ s with
          files_to_update :=
            s.files_to_update.filter (fun e => decide (now - e.2 < hundredMillis * 5)),
          files_to_update_buffer := [] },
        (s.files_to_update.filter (fun e => !decide (now - e.2 < hundredMillis * 5))).map
            (fun e => Mutation.update_file e.1) ++
          (if s.files_to_update.any (fun e => !decide (now - e.2 < hundredMillis * 5))
            then [Mutation.notify_changed] else []),
        true) := by
  unfold handle_to_update_eviction
  rw [to_update_loop_okEnv]
  simp

/-- Rename eviction in the all-success environment, in closed form. -/
theorem handle_rename_from_eviction_okEnv (now : Nat) (s : HandlerState) :
    handle_rename_from_eviction okEnv now s =
      ({ s with
          rename_from :=
            s.rename_from.filter (fun e => !decide (hundredMillis < now - e.2)),
          rename_from_buffer := [] },
        (s.rename_from.filter (fun e => decide (hundredMillis < now - e.2))).map
            (fun e => Mutation.remove e.1) ++
          (if s.rename_from.any (fun e => decide (hundredMillis < now - e.2))
            then [Mutation.notify_changed] else []),
        true) := by
  unfold handle_rename_from_eviction
  rw [rename_from_loop_okEnv]
  simp

/-- A tick whose cadence gate does not pass changes nothing and emits
nothing. -/
theorem tick_gate_closed (env : Env) (now : Nat) (s : HandlerState)
    (h : ¬ hundredMillis < now - s.last_events_eviction_check) :
    tick env now s = (s, []) := by
  simp [tick, h]

/-- A tick whose gate passes resets the last-checked instant to now, in any
environment, whether or not either eviction found work or failed. -/
theorem tick_gate_resets (env : Env) (now : Nat) (s : HandlerState)
    (h : hundredMillis < now - s.last_events_eviction_check) :
    (tick env now s).1.last_events_eviction_check = now := by
  simp [tick, h]

/-- A gate-passing tick in the all-success environment, in closed form. -/
theorem tick_okEnv_gate (now : Nat) (s : HandlerState)
    (h : hundredMillis < now - s.last_events_eviction_check) :
    tick okEnv now s =
      ({ last_events_eviction_check := now,
          rename_from :=
            s.rename_from.filter (fun e => !decide (hundredMillis < now - e.2)),
          rename_from_buffer := [],
          recently_renamed_from :=
            s.recently_renamed_from.filter (fun e => decide (now - e.2 < hundredMillis)),
          files_to_update :=
            s.files_to_update.filter (fun e => decide (now - e.2 < hundredMillis * 5)),
          files_to_update_buffer := [] },
        ((s.files_to_update.filter (fun e => !decide (now - e.2 < hundredMillis * 5))).map
            (fun e => Mutation.update_file e.1) ++
          (if s.files_to_update.any (fun e => !decide (now - e.2 < hundredMillis * 5))
            then [Mutation.notify_changed] else [])) ++
        ((s.rename_from.filter (fun e => decide (hundredMillis < now - e.2))).map
            (fun e => Mutation.remove e.1) ++
          (if s.rename_from.any (fun e => decide (hundredMillis < now - e.2))
            then [Mutation.notify_changed] else []))) := by
  simp [tick, h, handle_to_update_eviction_okEnv, handle_rename_from_eviction_okEnv]

/-- Handling a data event from a state with no pending update entry for its
path yields the pre-flush state for that path. -/
theorem handle_data_initial (env : Env) (t t0 : Nat) (p : FsPath) :
    handle_event env t (initialState t0) (.dataChanged p) =
      (preFlushState p t t0, [], .ok ()) := by
  simp [handle_event, initialState, preFlushState, TimedMap.insertKey, TimedMap.removeKey]

/-- A gate-passing tick on the pre-flush state before the flush delay only
advances the last-checked instant. -/
theorem tick_preFlush_young (p : FsPath) (tN lc u : Nat)
    (hgate : hundredMillis < u - lc) (hyoung : u - tN < hundredMillis * 5) :
    tick okEnv u (preFlushState p tN lc) = (preFlushState p tN u, []) := by
  rw [tick_okEnv_gate u _ (by simp [preFlushState, initialState]; omega)]
  simp [preFlushState, initialState, hyoung]

/-- A gate-passing tick on the pre-flush state at or after the flush delay
flushes the single entry and signals the change notification. -/
theorem tick_preFlush_flush (p : FsPath) (tN lc u : Nat)
    (hgate : hundredMillis < u - lc) (hexp : ¬ u - tN < hundredMillis * 5) :
    tick okEnv u (preFlushState p tN lc) =
      (initialState u, [Mutation.update_file p, Mutation.notify_changed]) := by
  rw [tick_okEnv_gate u _ (by simp [preFlushState, initialState]; omega)]
  simp [preFlushState, initialState, hexp]

/-- A gate-passing tick on the empty state only advances the last-checked
instant. -/
theorem tick_initial (lc u : Nat) (hgate : hundredMillis < u - lc) :
    tick okEnv u (initialState lc) = (initialState u, []) := by
  rw [tick_okEnv_gate u _ (by simp [initialState]; omega)]
  simp [initialState]

/-- C6: a RenameFrom event whose path carries a resolved-rename marker only
removes the marker (stale duplicate, suppressed); otherwise it inserts the
path into the pending-rename-from map with the current instant.  Hence a
RenameBoth with old path A followed by a duplicate RenameFrom(A) while the
marker is present emits no further mutation and leaves no pending or marker
entry for A. -/
theorem c6_rename_from_suppression (env : Env) (s : HandlerState) (p A B : FsPath)
    (m : Metadata) (now now1 now2 : Nat)
    (hmeta : env.metadata B = some m) (hok : env.renameOk B = true) :
    (s.recently_renamed_from.containsKey p = true →
      handle_event env now s (.renameFrom p) =
        ({ s with recently_renamed_from := s.recently_renamed_from.removeKey p },
          [], .ok ())) ∧
    (s.recently_renamed_from.containsKey p = false →
      handle_event env now s (.renameFrom p) =
        ({ s with rename_from := s.rename_from.insertKey p now }, [], .ok ())) ∧
    ((handle_event env now2 (handle_event env now1 s (.renameBoth A B)).1
        (.renameFrom A)).2.1 = [] ∧
      (handle_event env now2 (handle_event env now1 s (.renameBoth A B)).1
        (.renameFrom A)).1.rename_from.containsKey A = false ∧
      (handle_event env now2 (handle_event env now1 s (.renameBoth A B)).1
        (.renameFrom A)).1.recently_renamed_from.containsKey A = false) := by
  refine ⟨fun h => by simp [handle_event, h], fun h => by simp [handle_event, h], ?_⟩
  have hs1 : (handle_event env now1 s (.renameBoth A B)).1 =
      { s with rename_from := s.rename_from.removeKey A,
               recently_renamed_from := s.recently_renamed_from.insertKey A now1 } := by
    simp [handle_event, hmeta, hok]
  rw [hs1]
  have hcontains : (s.recently_renamed_from.insertKey A now1).containsKey A = true := by
    simp [TimedMap.containsKey_insertKey]
  refine ⟨by simp [handle_event, hcontains], ?_, ?_⟩
  · simp [handle_event, hcontains, TimedMap.containsKey_removeKey_self]
  · simp [handle_event, hcontains, TimedMap.containsKey_removeKey_self]

/-- C6 witness: the theorem applied at a concrete pair of rename events. -/
theorem c6_witness :
    okEnv.metadata "B" = some 0 ∧ okEnv.renameOk "B" = true ∧
    (handle_event okEnv 3 (handle_event okEnv 2 (initialState 0)
        (.renameBoth "A" "B")).1 (.renameFrom "A")).2.1 = [] ∧
    (handle_event okEnv 3 (handle_event okEnv 2 (initialState 0)
        (.renameBoth "A" "B")).1 (.renameFrom "A")).1.rename_from.containsKey
        "A" = false ∧
    (handle_event okEnv 3 (handle_event okEnv 2 (initialState 0)
        (.renameBoth "A" "B")).1 (.renameFrom "A")).1.recently_renamed_from.containsKey
        "A" = false :=
  ⟨by decide, by decide,
    (c6_rename_from_suppression okEnv (initialState 0) "x" "A" "B" 0 1 2 3
      (by decide) (by decide)).2.2⟩

/-- C7: a lone RenameFrom with no matching RenameBoth whose entry is older
than the dangling-rename timeout at a gate-passing sweep yields exactly one
remove call for its path, the entry is dropped, and a subsequent sweep emits
no second remove for it; any entry not older than the timeout is kept in the
map for the next sweep. -/
theorem c7_dangling_rename_eviction (p : FsPath) (t0 tA u1 u2 now t : Nat)
    (s : HandlerState) (q : FsPath)
    (hgate : hundredMillis < u1 - t0) (hexp : hundredMillis < u1 - tA) :
    (countMut (tick okEnv u1 (handle_event okEnv tA (initialState t0)
        (.renameFrom p)).1).2 (Mutation.remove p) = 1 ∧
      (tick okEnv u1 (handle_event okEnv tA (initialState t0)
        (.renameFrom p)).1).1.rename_from = [] ∧
      countMut (tick okEnv u2 (tick okEnv u1 (handle_event okEnv tA (initialState t0)
        (.renameFrom p)).1).1).2 (Mutation.remove p) = 0) ∧
    (¬ hundredMillis < now - t → (q, t) ∈ s.rename_from →
      (q, t) ∈ (handle_rename_from_eviction okEnv now s).1.rename_from) := by
  have hs1 : (handle_event okEnv tA (initialState t0) (.renameFrom p)).1 =
      { initialState t0 with rename_from := [(p, tA)] } := by
    simp [handle_event, initialState, TimedMap.containsKey, TimedMap.insertKey,
      TimedMap.removeKey]
  have htick : tick okEnv u1 ({ initialState t0 with rename_from := [(p, tA)] }) =
      (initialState u1, [Mutation.remove p, Mutation.notify_changed]) := by
    rw [tick_okEnv_gate u1 _ (by simp [initialState]; omega)]
    simp [initialState, hexp]
  constructor
  · rw [hs1, htick]
    refine ⟨by simp [countMut], by simp [initialState], ?_⟩
    by_cases hg2 : hundredMillis < u2 - u1
    · rw [show (initialState u1, [Mutation.remove p, Mutation.notify_changed]).1 =
          initialState u1 from rfl, tick_initial u1 u2 (by simpa [initialState] using hg2)]
      simp [countMut]
    · rw [show (initialState u1, [Mutation.remove p, Mutation.notify_changed]).1 =
          initialState u1 from rfl,
        tick_gate_closed okEnv u2 _ (by simpa [initialState] using hg2)]
      simp [countMut]
  · intro hyoung hmem
    rw [handle_rename_from_eviction_okEnv]
    exact List.mem_filter.mpr ⟨hmem, by simp [hyoung]⟩

/-- C7 witness: the theorem applied at a concrete dangling rename. -/
theorem c7_witness :
    hundredMillis < 200 - 0 ∧ hundredMillis < 200 - 10 ∧
    countMut (tick okEnv 200 (handle_event okEnv 10 (initialState 0)
        (.renameFrom "a")).1).2 (Mutation.remove "a") = 1 ∧
    (tick okEnv 200 (handle_event okEnv 10 (initialState 0)
        (.renameFrom "a")).1).1.rename_from = [] ∧
    countMut (tick okEnv 300 (tick okEnv 200 (handle_event okEnv 10 (initialState 0)
        (.renameFrom "a")).1).1).2 (Mutation.remove "a") = 0 :=
  ⟨by decide, by decide,
    (c7_dangling_rename_eviction "a" 0 10 200 300 0 0 (initialState 0) "q"
      (by decide) (by decide)).1⟩

/-- C9: after a tick whose cadence gate passed, a second tick less than one
cadence interval later performs no mutation and no state change, because the
last-checked instant was reset to the first invocation, whatever work (or
failure) that invocation saw. -/
theorem c9_second_tick_noop (env env2 : Env) (now1 now2 : Nat) (s : HandlerState)
    (hgate : hundredMillis < now1 - s.last_events_eviction_check)
    (hclose : now2 - now1 < hundredMillis) :
    tick env2 now2 (tick env now1 s).1 = ((tick env now1 s).1, []) := by
  apply tick_gate_closed
  rw [tick_gate_resets env now1 s hgate]
  omega

/-- C9 witness: the theorem applied at two concrete back-to-back ticks. -/
theorem c9_witness :
    hundredMillis < 200 - c3State.last_events_eviction_check ∧
    250 - 200 < hundredMillis ∧
    tick okEnv 250 (tick okEnv 200 c3State).1 = ((tick okEnv 200 c3State).1, []) :=
  ⟨by decide, by decide,
    c9_second_tick_noop okEnv okEnv 200 250 c3State (by decide) (by decide)⟩

/-- C10: handling a Remove event calls the sink remove and returns the state
exactly unchanged — all three pending maps and both buffers keep their values
— and in particular a pending update entry for the removed path survives, so
a later gate-passing sweep after the flush delay still emits update_file for
the already-removed path. -/
theorem c10_remove_event_frame (env : Env) (s : HandlerState) (p : FsPath)
    (now t0 tE tR u : Nat) (hok : env.removeOk p = true)
    (hgate : hundredMillis < u - t0) (hexp : ¬ u - tE < hundredMillis * 5) :
    handle_event env now s (.removeEvent p) = (s, [Mutation.remove p], .ok ()) ∧
    Mutation.update_file p ∈
      (tick okEnv u ((handle_event okEnv tR
        ((handle_event okEnv tE (initialState t0) (.dataChanged p)).1)
        (.removeEvent p)).1)).2 := by
  constructor
  · simp [handle_event, hok]
  · have h1 : (handle_event okEnv tE (initialState t0) (.dataChanged p)).1 =
        preFlushState p tE t0 := by rw [handle_data_initial]
    have h2 : (handle_event okEnv tR (preFlushState p tE t0) (.removeEvent p)).1 =
        preFlushState p tE t0 := by simp [handle_event, okEnv]
    rw [h1, h2, tick_preFlush_flush p tE t0 u (by simpa using hgate) hexp]
    simp

/-- C10 witness: the theorem applied at a concrete remove-then-sweep run. -/
theorem c10_witness :
    okEnv.removeOk "f" = true ∧ hundredMillis < 600 - 0 ∧
    ¬ 600 - 10 < hundredMillis * 5 ∧
    handle_event okEnv 0 c3State (.removeEvent "f") =
      (c3State, [Mutation.remove "f"], .ok ()) ∧
    Mutation.update_file "f" ∈
      (tick okEnv 600 ((handle_event okEnv 20
        ((handle_event okEnv 10 (initialState 0) (.dataChanged "f")).1)
        (.removeEvent "f")).1)).2 :=
  ⟨by decide, by decide, by decide,
    (c10_remove_event_frame okEnv c3State "f" 0 0 10 20 600
      (by decide) (by decide) (by decide)).1,
    (c10_remove_event_frame okEnv c3State "f" 0 0 10 20 600
      (by decide) (by decide) (by decide)).2⟩

/-- Update eviction leaves both rename maps untouched. -/
theorem to_update_eviction_rename_frame (env : Env) (now : Nat) (s : HandlerState) :
    (handle_to_update_eviction env now s).1.rename_from = s.rename_from ∧
    (handle_to_update_eviction env now s).1.recently_renamed_from =
      s.recently_renamed_from := by
  rcases hr : to_update_loop env now s.files_to_update with ⟨buf, tr, inv, ok⟩
  simp only [handle_to_update_eviction, hr]
  cases ok <;> simp

/-- Rename eviction never adds a rename_from entry: afterwards every entry of
the map was already in it. -/
theorem rename_eviction_subset (env : Env) (now : Nat) (s : HandlerState) :
    ∀ e ∈ (handle_rename_from_eviction env now s).1.rename_from,
      e ∈ s.rename_from := by
  have hb := rename_from_loop_buf_subset env now s.rename_from
  rcases hr : rename_from_loop env now s.rename_from with ⟨buf, tr, inv, ok⟩
  rw [hr] at hb
  simp only [handle_rename_from_eviction, hr]
  cases ok
  · simp
  · simpa using hb

/-- Rename eviction leaves the resolved-rename markers untouched. -/
theorem rename_eviction_recently_frame (env : Env) (now : Nat) (s : HandlerState) :
    (handle_rename_from_eviction env now s).1.recently_renamed_from =
      s.recently_renamed_from := by
  rcases hr : rename_from_loop env now s.rename_from with ⟨buf, tr, inv, ok⟩
  simp only [handle_rename_from_eviction, hr]
  cases ok <;> simp

/-- A tick never adds a rename_from entry. -/
theorem tick_rename_from_subset (env : Env) (now : Nat) (s : HandlerState) :
    ∀ e ∈ (tick env now s).1.rename_from, e ∈ s.rename_from := by
  by_cases hg : hundredMillis < now - s.last_events_eviction_check
  · intro e he
    simp only [tick, if_pos hg] at he
    have h1 := (to_update_eviction_rename_frame env now s).1
    exact h1 ▸ rename_eviction_subset env now _ e he
  · rw [tick_gate_closed env now s hg]
    exact fun e he => he

/-- A tick never adds a resolved-rename marker. -/
theorem tick_recently_subset (env : Env) (now : Nat) (s : HandlerState) :
    ∀ e ∈ (tick env now s).1.recently_renamed_from, e ∈ s.recently_renamed_from := by
  by_cases hg : hundredMillis < now - s.last_events_eviction_check
  · intro e he
    simp only [tick, if_pos hg] at he
    have he2 := (List.mem_filter.mp he).1
    rw [rename_eviction_recently_frame env now _,
      (to_update_eviction_rename_frame env now s).2] at he2
    exact he2
  · rw [tick_gate_closed env now s hg]
    exact fun e he => he

/-- A tick preserves the disjointness of the two rename maps. -/
theorem tick_preserves_disjoint (env : Env) (now : Nat) (s : HandlerState)
    (hd : renameMapsDisjoint s) : renameMapsDisjoint (tick env now s).1 := by
  intro q hq
  obtain ⟨t, hm⟩ := TimedMap.containsKey_iff.mp hq
  have hq2 : s.rename_from.containsKey q = true :=
    TimedMap.containsKey_iff.mpr ⟨t, tick_rename_from_subset env now s _ hm⟩
  exact TimedMap.containsKey_false_of_subset (tick_recently_subset env now s) (hd q hq2)

/-- Handling any event preserves the disjointness of the two rename maps. -/
theorem handle_event_preserves_disjoint (env : Env) (now : Nat) (s : HandlerState)
    (e : WatcherEvent) (hd : renameMapsDisjoint s) :
    renameMapsDisjoint (handle_event env now s e).1 := by
  cases e with
  | createFile p => exact fun q hq => hd q hq
  | dataChanged p => exact fun q hq => hd q hq
  | otherEvent => exact fun q hq => hd q hq
  | createFolder p =>
      rcases hm : env.metadata p with _ | m
      · simpa [handle_event, hm] using hd
      · by_cases hc : env.createDirOk p <;> simpa [handle_event, hm, hc] using hd
  | removeEvent p =>
      by_cases hc : env.removeOk p <;> simpa [handle_event, hc] using hd
  | renameFrom p =>
      by_cases hc : s.recently_renamed_from.containsKey p = true
      · intro q hq
        simp only [handle_event, hc, if_pos] at hq ⊢
        exact TimedMap.containsKey_false_of_subset
          (fun e he => TimedMap.mem_removeKey he) (hd q hq)
      · intro q hq
        have hc2 : s.recently_renamed_from.containsKey p = false := by
          cases hx : s.recently_renamed_from.containsKey p
          · rfl
          · exact absurd hx hc
        simp only [handle_event, hc2, Bool.false_eq_true, if_neg, if_false] at hq ⊢
        rw [TimedMap.containsKey_insertKey] at hq
        rcases Bool.or_eq_true_iff.mp hq with h | h
        · rwa [beq_iff_eq.mp h]
        · exact hd q h
  | renameBoth path0 path1 =>
      have hsub : ∀ q, (s.rename_from.removeKey path0).containsKey q = true →
          s.recently_renamed_from.containsKey q = false := by
        intro q hq
        obtain ⟨t, hm⟩ := TimedMap.containsKey_iff.mp hq
        exact hd q (TimedMap.containsKey_iff.mpr ⟨t, TimedMap.mem_removeKey hm⟩)
      rcases hm : env.metadata path1 with _ | m
      · intro q hq
        simp only [handle_event, hm] at hq ⊢
        exact hsub q hq
      · by_cases hc : env.renameOk path1
        · intro q hq
          simp only [handle_event, hm, hc, if_pos] at hq ⊢
          rw [TimedMap.containsKey_insertKey]
          by_cases hqp : q = path0
          · subst hqp
            rw [TimedMap.containsKey_removeKey_self] at hq
            simp at hq
          · have h1 : (q == path0) = false := by simp [hqp]
            rw [h1]
            simpa using hsub q hq
        · intro q hq
          simp only [handle_event, hm, hc] at hq ⊢
          simp only [if_neg, Bool.false_eq_true, if_false] at hq ⊢
          exact hsub q hq

/-- Running any schedule preserves the disjointness of the two rename maps. -/
theorem run_preserves_disjoint (ops : List (Env × Nat × Op)) :
    ∀ s : HandlerState, renameMapsDisjoint s → renameMapsDisjoint (run s ops).1 := by
  induction ops with
  | nil => exact fun s hd => hd
  | cons x rest ih =>
      intro s hd
      obtain ⟨env, now, op⟩ := x
      simp only [run]
      apply ih
      cases op with
      | event e => exact handle_event_preserves_disjoint env now s e hd
      | tickOp => exact tick_preserves_disjoint env now s hd

/-- C8: starting from the empty handler state, after any sequence of
handle_event and tick invocations, no path is simultaneously a key of the
pending-rename-from map and of the resolved-rename-marker map. -/
theorem c8_rename_maps_disjoint (t0 : Nat) (ops : List (Env × Nat × Op)) (p : FsPath)
    (h : (run (initialState t0) ops).1.rename_from.containsKey p = true) :
    (run (initialState t0) ops).1.recently_renamed_from.containsKey p = false :=
  run_preserves_disjoint ops (initialState t0)
    (fun q hq => by simp [initialState, TimedMap.containsKey] at hq) p h

/-- C8 witness: the invariant applied after a run that leaves a
pending-rename-from entry. -/
theorem c8_witness :
    (run (initialState 0)
      [(okEnv, 10, Op.event (.renameFrom "a"))]).1.rename_from.containsKey "a" =
      true ∧
    (run (initialState 0)
      [(okEnv, 10, Op.event (.renameFrom "a"))]).1.recently_renamed_from.containsKey
      "a" = false :=
  ⟨by decide,
    c8_rename_maps_disjoint 0 [(okEnv, 10, Op.event (.renameFrom "a"))] "a" (by decide)⟩

/-- Running a concatenated schedule runs the pieces in order and concatenates
the traces. -/
theorem run_append (l1 l2 : List (Env × Nat × Op)) :
    ∀ s : HandlerState, run s (l1 ++ l2) =
      ((run (run s l1).1 l2).1, (run s l1).2 ++ (run (run s l1).1 l2).2) := by
  induction l1 with
  | nil => intro s; simp [run]
  | cons x rest ih =>
      intro s
      simp only [List.cons_append, run]
      rw [show rest.append l2 = rest ++ l2 from rfl, ih]
      simp

/-- A burst event from the pre-flush state refreshes the single pending
entry, stamping it with the event instant. -/
theorem handle_burst_preFlush (env : Env) (p : FsPath) (b : Bool) (t tN lc : Nat) :
    handle_event env t (preFlushState p tN lc) (burstEvent p b) =
      (preFlushState p t lc, [], .ok ()) := by
  cases b <;>
    simp [burstEvent, handle_event, preFlushState, initialState,
      TimedMap.insertKey, TimedMap.removeKey]

/-- A burst event from the empty state creates the pre-flush state. -/
theorem handle_burst_initial (env : Env) (p : FsPath) (b : Bool) (t t0 : Nat) :
    handle_event env t (initialState t0) (burstEvent p b) =
      (preFlushState p t t0, [], .ok ()) := by
  cases b <;>
    simp [burstEvent, handle_event, initialState, preFlushState,
      TimedMap.insertKey, TimedMap.removeKey]

/-- Running a burst from the pre-flush state emits nothing and leaves the
entry stamped with the instant of the last burst event. -/
theorem run_burst (p : FsPath) (lc : Nat) :
    ∀ (es : List (Nat × Bool)) (tP : Nat),
      run (preFlushState p tP lc) (burstSched p es) =
        (preFlushState p (lastTimeD es tP) lc, []) := by
  intro es
  induction es with
  | nil => intro tP; simp [burstSched, run, lastTimeD]
  | cons x rest ih =>
      intro tP
      obtain ⟨t, b⟩ := x
      have ih2 := ih t
      simp only [burstSched] at ih2
      simp only [burstSched, List.map_cons, run, step,
        handle_burst_preFlush okEnv p b t tP lc, ih2, lastTimeD, List.foldl_cons]
      simp [lastTimeD]

/-- Running a nonempty burst from the empty state emits nothing and reaches
the pre-flush state stamped with the instant of the last burst event. -/
theorem run_burst_initial (p : FsPath) (t0 : Nat) (x : Nat × Bool)
    (es : List (Nat × Bool)) :
    run (initialState t0) (burstSched p (x :: es)) =
      (preFlushState p (lastTimeD (x :: es) t0) t0, []) := by
  obtain ⟨t, b⟩ := x
  have h2 := run_burst p t0 es t
  simp only [burstSched] at h2
  simp only [burstSched, List.map_cons, run, step,
    handle_burst_initial okEnv p b t t0, h2, lastTimeD, List.foldl_cons]
  simp [lastTimeD]

/-- Running ticks from the empty state emits nothing and stays empty. -/
theorem run_ticks_initial : ∀ (us : List Nat) (lc : Nat),
    ∃ lc2, run (initialState lc) (ticksSched us) = (initialState lc2, []) := by
  intro us
  induction us with
  | nil => intro lc; exact ⟨lc, rfl⟩
  | cons u rest ih =>
      intro lc
      by_cases hg : hundredMillis < u - lc
      · obtain ⟨lc2, h2⟩ := ih u
        refine ⟨lc2, ?_⟩
        simp only [ticksSched] at h2
        simp only [ticksSched, List.map_cons, run, step, tick_initial lc u hg, h2]
        simp
      · obtain ⟨lc2, h2⟩ := ih lc
        refine ⟨lc2, ?_⟩
        simp only [ticksSched] at h2
        simp only [ticksSched, List.map_cons, run, step,
          tick_gate_closed okEnv u (initialState lc) (by simpa [initialState] using hg), h2]
        simp

/-- Running ticks from the pre-flush state: either no flush happened — the
state is still pre-flush with the same stamp, the trace is empty, and every
tick instant at or past the flush deadline had its cadence gate blocked by an
instant at most one cadence before it — or exactly one tick flushed, emitting
update_file then notify_changed at one instant past the deadline. -/
theorem run_ticks_preFlush (p : FsPath) (tN : Nat) :
    ∀ (us : List Nat) (lc : Nat),
      (∃ lc2, (lc2 = lc ∨ lc2 ∈ us) ∧
        run (preFlushState p tN lc) (ticksSched us) = (preFlushState p tN lc2, []) ∧
        ∀ pre u post, us = pre ++ u :: post → tN + hundredMillis * 5 ≤ u →
          ∃ v, (v = lc ∨ v ∈ pre) ∧ u - v ≤ hundredMillis) ∨
      (∃ lc2 u, u ∈ us ∧ tN + hundredMillis * 5 ≤ u ∧
        run (preFlushState p tN lc) (ticksSched us) =
          (initialState lc2,
            [(u, Mutation.update_file p), (u, Mutation.notify_changed)])) := by
  intro us
  induction us with
  | nil =>
      intro lc
      left
      refine ⟨lc, Or.inl rfl, rfl, ?_⟩
      intro pre u post hdecomp
      exact absurd hdecomp (by simp)
  | cons u0 rest ih =>
      intro lc
      by_cases hg : hundredMillis < u0 - lc
      · by_cases hy : u0 - tN < hundredMillis * 5
        · rcases ih u0 with ⟨lc2, hmem, heq, hblock⟩ | ⟨lc2, u, hu, hdl, heq⟩
          · left
            refine ⟨lc2, ?_, ?_, ?_⟩
            · rcases hmem with h | h
              · exact Or.inr (by simp [h])
              · exact Or.inr (by simp [h])
            · simp only [ticksSched] at heq
              simp only [ticksSched, List.map_cons, run, step,
                tick_preFlush_young p tN lc u0 hg hy, heq]
              simp
            · intro pre u post hdecomp hdl
              rcases pre with _ | ⟨v0, pre2⟩
              · simp only [List.nil_append, List.cons.injEq] at hdecomp
                obtain ⟨rfl, -⟩ := hdecomp
                exact absurd hdl (by omega)
              · simp only [List.cons_append, List.cons.injEq] at hdecomp
                obtain ⟨rfl, hrest⟩ := hdecomp
                obtain ⟨v, hv, hvle⟩ := hblock pre2 u post hrest hdl
                rcases hv with h | h
                · exact ⟨v, Or.inr (by simp [h]), hvle⟩
                · exact ⟨v, Or.inr (by simp [h]), hvle⟩
          · right
            refine ⟨lc2, u, List.mem_cons_of_mem _ hu, hdl, ?_⟩
            simp only [ticksSched] at heq
            simp only [ticksSched, List.map_cons, run, step,
              tick_preFlush_young p tN lc u0 hg hy, heq]
            simp
        · right
          obtain ⟨lc2, hrest⟩ := run_ticks_initial rest u0
          refine ⟨lc2, u0, List.mem_cons_self _ _,
            by have h100 : hundredMillis = 100 := rfl; omega, ?_⟩
          simp only [ticksSched] at hrest
          simp only [ticksSched, List.map_cons, run, step,
            tick_preFlush_flush p tN lc u0 hg hy, hrest]
          simp
      · rcases ih lc with ⟨lc2, hmem, heq, hblock⟩ | ⟨lc2, u, hu, hdl, heq⟩
        · left
          refine ⟨lc2, ?_, ?_, ?_⟩
          · rcases hmem with h | h
            · exact Or.inl h
            · exact Or.inr (List.mem_cons_of_mem _ h)
          · simp only [ticksSched] at heq
            simp only [ticksSched, List.map_cons, run, step,
              tick_gate_closed okEnv u0 (preFlushState p tN lc)
                (by simpa [preFlushState, initialState] using hg),
              heq]
            simp
          · intro pre u post hdecomp hdl
            rcases pre with _ | ⟨v0, pre2⟩
            · simp only [List.nil_append, List.cons.injEq] at hdecomp
              obtain ⟨rfl, -⟩ := hdecomp
              exact ⟨lc, Or.inl rfl, by omega⟩
            · simp only [List.cons_append, List.cons.injEq] at hdecomp
              obtain ⟨rfl, hrest⟩ := hdecomp
              obtain ⟨v, hv, hvle⟩ := hblock pre2 u post hrest hdl
              rcases hv with h | h
              · exact ⟨v, Or.inl h, hvle⟩
              · exact ⟨v, Or.inr (List.mem_cons_of_mem _ h), hvle⟩
        · right
          refine ⟨lc2, u, List.mem_cons_of_mem _ hu, hdl, ?_⟩
          simp only [ticksSched] at heq
          simp only [ticksSched, List.map_cons, run, step,
            tick_gate_closed okEnv u0 (preFlushState p tN lc)
                (by simpa [preFlushState, initialState] using hg),
            heq]
          simp

/-- C5: for every nonempty burst of DataChanged or CreateFile events on one
path within a window shorter than the flush delay, followed by any ticks in
the all-success environment: no update_file for the path is emitted before
the flush delay of five cadence units has elapsed since the last burst event;
at most one update_file for the path is emitted in total; and if some tick
lies at or past that deadline with its cadence gate certainly open (more than
one cadence after the start instant and after every earlier tick), exactly one
is emitted. -/
theorem c5_debounce_coalescing (p : FsPath) (t0 : Nat) (es : List (Nat × Bool))
    (us : List Nat) (hne : es ≠ [])
    (hwindow : ∀ x ∈ es, ∀ y ∈ es, x.1 - y.1 < hundredMillis * 5) :
    (∀ q ∈ (run (initialState t0) (burstSched p es ++ ticksSched us)).2,
        q.2 = Mutation.update_file p → lastTimeD es t0 + hundredMillis * 5 ≤ q.1) ∧
    countMutT (run (initialState t0) (burstSched p es ++ ticksSched us)).2
        (Mutation.update_file p) ≤ 1 ∧
    ((∃ pre u post, us = pre ++ u :: post ∧
        lastTimeD es t0 + hundredMillis * 5 ≤ u ∧
        ∀ v, (v = t0 ∨ v ∈ pre) → v + hundredMillis < u) →
      countMutT (run (initialState t0) (burstSched p es ++ ticksSched us)).2
          (Mutation.update_file p) = 1) := by
  obtain ⟨x, es2, rfl⟩ := List.exists_cons_of_ne_nil hne
  have happ := run_append (burstSched p (x :: es2)) (ticksSched us) (initialState t0)
  rw [run_burst_initial p t0 x es2] at happ
  simp only at happ
  rcases run_ticks_preFlush p (lastTimeD (x :: es2) t0) us t0 with
    ⟨lc2, hmem, heq, hblock⟩ | ⟨lc2, u, hu, hdl, heq⟩
  · rw [heq] at happ
    simp only [List.nil_append] at happ
    rw [happ]
    refine ⟨by simp, by simp [countMutT], ?_⟩
    rintro ⟨pre, u, post, rfl, hdl2, hgap⟩
    obtain ⟨v, hv, hvle⟩ := hblock pre u post rfl hdl2
    have := hgap v hv
    omega
  · rw [heq] at happ
    simp only [List.nil_append] at happ
    rw [happ]
    refine ⟨?_, by simp [countMutT], fun _ => by simp [countMutT]⟩
    intro q hq hq2
    rcases List.mem_cons.mp hq with h | h
    · rw [h]
      exact hdl
    · simp only [List.mem_cons, List.mem_singleton] at h
      rcases h with h | h
      · rw [h] at hq2
        simp at hq2
      · simp at h

/-- C5 witness: the theorem applied to a concrete two-event burst followed by
one tick past the deadline. -/
theorem c5_witness :
    (([(10, false), (20, true)] : List (Nat × Bool)) ≠ []) ∧
    (∀ x ∈ ([(10, false), (20, true)] : List (Nat × Bool)),
      ∀ y ∈ ([(10, false), (20, true)] : List (Nat × Bool)),
        x.1 - y.1 < hundredMillis * 5) ∧
    (∃ pre u post, ([600] : List Nat) = pre ++ u :: post ∧
        lastTimeD [(10, false), (20, true)] 0 + hundredMillis * 5 ≤ u ∧
        ∀ v, (v = 0 ∨ v ∈ pre) → v + hundredMillis < u) ∧
    countMutT (run (initialState 0)
        (burstSched "f" [(10, false), (20, true)] ++ ticksSched [600])).2
        (Mutation.update_file "f") = 1 :=
  ⟨by simp, by decide,
    ⟨[], 600, [], rfl, by decide, by
      intro v hv
      rcases hv with rfl | h
      · decide
      · simp at h⟩,
    (c5_debounce_coalescing "f" 0 [(10, false), (20, true)] [600]
        (by simp) (by decide)).2.2
      ⟨[], 600, [], rfl, by decide, by
        intro v hv
        rcases hv with rfl | h
        · decide
        · simp at h⟩⟩

end SpacedriveWatcher
